import Mathlib

/-!
Shallow embedding of the gobayes Naive Bayes text classifier.

Source layout embedded here:
- src/bayes/category/category.go : legacy Category token mutations (value-style API,
  no error returns); its UntrainToken guard is embedded exactly as written.
- src/unnamed/part_007 : the current Category implementation (error-returning
  TrainToken/UntrainToken with the positive-count guard) that the classifier in
  src/bayes/bayes.go compiles against.
- src/unnamed/part_008 : the current Categories store with the probabilitiesDirty flag.
- src/bayes/bayes.go : Classifier (Train, Untrain, Classify, Score, scoreUnlocked,
  calculateBayesianProbability, cleanUpCategory).
- src/bayes/persistence.go : Save / Load / validateModelState.

Modelling conventions: Go maps become association lists (Go maps never hold duplicate
keys, and insertion order is used as the canonical iteration order; all quantities
proved here are iteration-order independent). Go int becomes Int, float64 becomes Rat:
every floating-point expression in the scoring and prior computations is a ratio of
small integer counts combined by field operations, embedded over the rationals.
Stateful methods become functions returning the updated value.
-/

attribute [local semireducible] Rat.add Rat.sub Rat.mul Rat.inv

/-- Token map of one category: association list mirroring the Go map from token to
count. Keys are unique in every state the program builds. -/
abbrev TokenMap := List (String × Int)

/-- Go map read with zero default, as in reading cat.Tokens[word]. -/
def tokensGet (m : TokenMap) (k : String) : Int :=
  (List.lookup k m).getD 0

/-- Go two-result map read: whether the key is present. -/
def tokensHas (m : TokenMap) (k : String) : Bool :=
  (List.lookup k m).isSome

/-- Go map write tokens[k] += v: bumps the entry stored under k, creating it at v
when absent (Go map keys are unique, so updating the stored entry in place models
the write exactly). -/
def tokensAdd (m : TokenMap) (k : String) (v : Int) : TokenMap :=
  match m with
  | [] => [(k, v)]
  | (a, b) :: t => if a = k then (a, b + v) :: t else (a, b) :: tokensAdd t k v

/-- Go delete(tokens, k). -/
def tokensDelete (m : TokenMap) (k : String) : TokenMap :=
  m.filter (fun p => p.1 != k)

/-- Sum of all stored counts. -/
def tokensSum (m : TokenMap) : Int :=
  (m.map Prod.snd).sum

/-- Category of src/unnamed/part_007 (and, with exported field names, of
src/bayes/category/category.go): token counts, running tally, cached priors. -/
structure Category where
  name : String
  tokens : TokenMap
  tally : Int
  probNotInCat : ℚ
  probInCat : ℚ
deriving Repr, DecidableEq

/-- NewCategory from src/unnamed/part_007 lines 93-101. -/
def NewCategory (name : String) : Category :=
  { name := name, tokens := [], tally := 0, probNotInCat := 0, probInCat := 0 }

/-- Error returned by the current token mutations for a non-positive count
(ErrInvalidTokenCount in src/unnamed/part_007 line 81). -/
inductive CategoryErr where
  | invalidTokenCount
deriving Repr, DecidableEq

/-- TrainToken from src/unnamed/part_007 lines 104-113: rejects a non-positive count,
otherwise adds count to the token entry and to the tally. The Go method mutates the
receiver and returns an error; here it returns the updated category and the error. -/
def Category.TrainToken (cat : Category) (word : String) (count : Int) :
    Category × Option CategoryErr :=
  if count ≤ 0 then
    (cat, some CategoryErr.invalidTokenCount)
  else
    ({ cat with tokens := tokensAdd cat.tokens word count, tally := cat.tally + count },
      none)

/-- UntrainToken from src/unnamed/part_007 lines 116-134: rejects a non-positive
count; when the token exists, removes the whole entry if count covers it, otherwise
decrements the entry and the tally by count; unknown tokens are a no-op. -/
def Category.UntrainToken (cat : Category) (word : String) (count : Int) :
    Category × Option CategoryErr :=
  if count ≤ 0 then
    (cat, some CategoryErr.invalidTokenCount)
  else if tokensHas cat.tokens word then
    if count ≥ tokensGet cat.tokens word then
      ({ cat with tokens := tokensDelete cat.tokens word,
                  tally := cat.tally - tokensGet cat.tokens word }, none)
    else
      ({ cat with tokens := tokensAdd cat.tokens word (-count),
                  tally := cat.tally - count }, none)
  else
    (cat, none)

/-- TrainToken from src/bayes/category/category.go lines 24-33: no count guard;
creates the entry or increments it, then adds count to the tally. -/
def Category.TrainTokenLegacy (cat : Category) (word : String) (count : Int) : Category :=
  if tokensHas cat.tokens word then
    { cat with tokens := tokensAdd cat.tokens word count, tally := cat.tally + count }
  else
    { cat with tokens := cat.tokens ++ [(word, count)], tally := cat.tally + count }

/-- UntrainToken from src/bayes/category/category.go lines 36-50, embedded exactly as
written: the guard on line 38 returns early when the token lookup SUCCEEDS, so the
body below it only ever runs for an absent token (where the read defaults to 0). -/
def Category.UntrainTokenLegacy (cat : Category) (word : String) (count : Int) : Category :=
  if tokensHas cat.tokens word then
    cat
  else if count ≥ tokensGet cat.tokens word then
    { cat with tally := cat.tally - tokensGet cat.tokens word,
               tokens := tokensDelete cat.tokens word }
  else
    { cat with tokens := tokensAdd cat.tokens word (-count),
               tally := cat.tally - count }

/-- GetTokenCount from src/unnamed/part_007 lines 142-147. -/
def Category.GetTokenCount (cat : Category) (word : String) : Int :=
  tokensGet cat.tokens word

/-- GetTally from src/unnamed/part_007 lines 150-152. -/
def Category.GetTally (cat : Category) : Int :=
  cat.tally

/-- GetProbInCat from src/unnamed/part_007 lines 155-157. -/
def Category.GetProbInCat (cat : Category) : ℚ :=
  cat.probInCat

/-- GetProbNotInCat from src/unnamed/part_007 lines 160-162. -/
def Category.GetProbNotInCat (cat : Category) : ℚ :=
  cat.probNotInCat

/-- setProbabilities from src/unnamed/part_007 lines 164-167. -/
def Category.setProbabilities (cat : Category) (probInCat probNotInCat : ℚ) : Category :=
  { cat with probInCat := probInCat, probNotInCat := probNotInCat }

/-- Categories store of src/unnamed/part_008: the category map plus the dirty flag
for the cached priors. -/
structure Categories where
  categories : List (String × Category)
  probabilitiesDirty : Bool
deriving Repr, DecidableEq

/-- NewCategories from src/unnamed/part_008 lines 17-22: empty map, dirty flag set. -/
def NewCategories : Categories :=
  { categories := [], probabilitiesDirty := true }

/-- AddCategory from src/unnamed/part_008 lines 25-32: stores a fresh category under
its name and marks the priors dirty. -/
def Categories.AddCategory (cats : Categories) (name : String) : Categories × Category :=
  let cat := NewCategory name
  ({ categories := cats.categories ++ [(name, cat)], probabilitiesDirty := true }, cat)

/-- GetCategory from src/unnamed/part_008 lines 35-42: returns the existing category,
otherwise adds a new one (which marks the priors dirty). -/
def Categories.GetCategory (cats : Categories) (name : String) : Categories × Category :=
  match List.lookup name cats.categories with
  | some cat => (cats, cat)
  | none => cats.AddCategory name

/-- DeleteCategory from src/unnamed/part_008 lines 45-48. -/
def Categories.DeleteCategory (cats : Categories) (name : String) : Categories :=
  { categories := cats.categories.filter (fun p => p.1 != name),
    probabilitiesDirty := true }

/-- Names from src/unnamed/part_008 lines 51-57 (Go map iteration order is arbitrary;
insertion order is the canonical order here). -/
def Categories.Names (cats : Categories) : List String :=
  cats.categories.map Prod.fst

/-- LookupCategory from src/unnamed/part_008 lines 60-63. -/
def Categories.LookupCategory (cats : Categories) (name : String) : Option Category :=
  List.lookup name cats.categories

/-- Write-back of a mutation performed through the pointer that GetCategory returned.
In Go the Category values are shared by pointer, so updating the category updates the
map entry in place and, crucially, does NOT touch the probabilitiesDirty flag; this
helper models exactly that aliasing. -/
def Categories.setCategory (cats : Categories) (name : String) (cat : Category) :
    Categories :=
  { cats with categories :=
      cats.categories.map (fun p => if p.1 = name then (p.1, cat) else p) }

/-- MarkProbabilitiesDirty from src/unnamed/part_008 lines 73-75. -/
def Categories.MarkProbabilitiesDirty (cats : Categories) : Categories :=
  { cats with probabilitiesDirty := true }

/-- Total tally over all categories, as accumulated by the first loop of
EnsureCategoryProbabilities (src/unnamed/part_008 lines 83-90). -/
def Categories.totalTally (cats : Categories) : ℚ :=
  (cats.categories.map (fun p => ((p.2.GetTally : ℚ)))).sum

/-- EnsureCategoryProbabilities from src/unnamed/part_008 lines 78-101: a no-op when
the flag is clean; otherwise recomputes, for every category, probInCat as
tally / totalTally (0 when the total is not positive) and probNotInCat as its
complement, then clears the flag. -/
def Categories.EnsureCategoryProbabilities (cats : Categories) : Categories :=
  if !cats.probabilitiesDirty then
    cats
  else
    let total := cats.totalTally
    { categories := cats.categories.map (fun p =>
        let probability : ℚ := if total > 0 then (p.2.GetTally : ℚ) / total else 0
        (p.1, p.2.setProbabilities probability (1 - probability))),
      probabilitiesDirty := false }

/-- Category summary record of src/unnamed/part_008 lines 4-8. -/
structure CategorySummary where
  tokenTally : Int
  probNotInCat : ℚ
  probInCat : ℚ
deriving Repr, DecidableEq

/-- Summaries from src/unnamed/part_008 lines 104-116: ensures the priors are current,
then snapshots tally and priors per category into fresh value records. -/
def Categories.Summaries (cats : Categories) : Categories × List (String × CategorySummary) :=
  let cats := cats.EnsureCategoryProbabilities
  (cats, cats.categories.map (fun p =>
    (p.1, { tokenTally := p.2.GetTally, probNotInCat := p.2.GetProbNotInCat,
            probInCat := p.2.GetProbInCat })))

/-- Separator predicate of the default tokenizer (src/bayes/bayes.go lines 45-47):
a rune is a separator when it is neither a letter nor a digit. -/
def isFieldSep (ch : Char) : Bool :=
  !(ch.isAlpha || ch.isDigit)

/-- Splitting step of strings.FieldsFunc: groups of consecutive non-separator
characters, with separator positions opening a new (possibly empty) group. -/
def fieldsFuncAux (p : Char → Bool) : List Char → List (List Char)
  | [] => [[]]
  | c :: cs =>
    let rest := fieldsFuncAux p cs
    if p c then [] :: rest
    else (c :: rest.headD []) :: rest.tail

/-- Default tokenizer tokenizeText (src/bayes/bayes.go lines 42-59): lower-cases the
sample and splits it on non-alphanumeric boundaries, dropping empty fields. The Go
code additionally applies NFKC normalization and snowball stemming through external
libraries; per spec section 2 these are optional, swappable tokenizer behaviors and
are modelled as the identity (the ASCII token samples used below are fixed points). -/
def tokenizeText (sample : String) : List String :=
  ((fieldsFuncAux isFieldSep (sample.data.map Char.toLower)).filter
    (fun g => !g.isEmpty)).map (fun g => String.mk g)

/-- countTokenOccurrences from src/bayes/bayes.go lines 70-78: per-token frequency of
the sample, one entry per distinct token. -/
def countTokenOccurrences (tokens : List String) : TokenMap :=
  tokens.foldl (fun occurrences token => tokensAdd occurrences token 1) []

/-- Classifier of src/bayes/bayes.go lines 23-27. The pluggable Tokenizer field is
configuration rather than trained state; each operation below takes the result of
getTokenizer as an explicit function argument. -/
structure Classifier where
  categories : Categories
deriving Repr, DecidableEq

/-- NewClassifier from src/bayes/bayes.go lines 35-39. -/
def NewClassifier : Classifier :=
  { categories := NewCategories }

/-- Character class of the category name pattern (src/bayes/bayes.go line 29). -/
def isNamePatternChar (ch : Char) : Bool :=
  ch = '-' || ch = '_' ||
    ('A' ≤ ch && ch ≤ 'Z') || ('a' ≤ ch && ch ≤ 'z') || ('0' ≤ ch && ch ≤ '9')

/-- The anchored regular expression of categoryNamePattern: one or more characters
drawn from dash, underscore, ASCII letters and digits. -/
def matchesNamePattern (s : String) : Bool :=
  !s.data.isEmpty && s.data.all isNamePatternChar

/-- Error returned by Train and Untrain for a malformed category name
(ErrInvalidCategoryName in src/bayes/bayes.go line 32). -/
inductive ClassifierErr where
  | invalidCategoryName
deriving Repr, DecidableEq

/-- cleanUpCategory from src/bayes/bayes.go lines 136-140: drops the category from
the store when its tally reached zero. -/
def Classifier.cleanUpCategory (cats : Categories) (cat : Category) : Categories :=
  if cat.GetTally = 0 then cats.DeleteCategory cat.name else cats

/-- Train from src/bayes/bayes.go lines 90-110: rejects a malformed name before any
mutation, otherwise fetches (or lazily creates) the category, trains every distinct
token with its in-sample frequency (TrainToken errors are discarded, as in the
source), cleans up an empty category, and runs EnsureCategoryProbabilities. -/
def Classifier.Train (tok : String → List String) (c : Classifier)
    (category text : String) : Classifier × Option ClassifierErr :=
  if !matchesNamePattern category then
    (c, some ClassifierErr.invalidCategoryName)
  else
    let res := c.categories.GetCategory category
    let occurrences := countTokenOccurrences (tok text)
    let cat := occurrences.foldl (fun cat p => (cat.TrainToken p.1 p.2).1) res.2
    let cats := (res.1.setCategory category cat)
    let cats := Classifier.cleanUpCategory cats cat
    ({ categories := cats.EnsureCategoryProbabilities }, none)

/-- Untrain from src/bayes/bayes.go lines 113-133: same shape as Train but applying
UntrainToken per distinct token. -/
def Classifier.Untrain (tok : String → List String) (c : Classifier)
    (category text : String) : Classifier × Option ClassifierErr :=
  if !matchesNamePattern category then
    (c, some ClassifierErr.invalidCategoryName)
  else
    let res := c.categories.GetCategory category
    let occurrences := countTokenOccurrences (tok text)
    let cat := occurrences.foldl (fun cat p => (cat.UntrainToken p.1 p.2).1) res.2
    let cats := (res.1.setCategory category cat)
    let cats := Classifier.cleanUpCategory cats cat
    ({ categories := cats.EnsureCategoryProbabilities }, none)

/-- calculateBayesianProbability from src/bayes/bayes.go lines 235-254, with float64
arithmetic carried over the rationals. The zero-denominator branch is kept exactly as
in the source. -/
def calculateBayesianProbability (category : Category) (tokenScore tokenTally : ℚ) : ℚ :=
  let prc := category.GetProbInCat
  let prnc := category.GetProbNotInCat
  let tokPrnc := (tokenTally - tokenScore) / tokenTally
  let tokPrc := tokenScore / tokenTally
  let numerator := tokPrc * prc
  let denominator := tokPrnc * prnc + numerator
  if denominator ≠ 0 then numerator / denominator else 0

/-- Go map update scores[name] += v: the single entry stored under the name is
bumped, every other entry is untouched. -/
def scoresAdd (scores : List (String × ℚ)) (name : String) (v : ℚ) :
    List (String × ℚ) :=
  scores.map (fun sp => if sp.1 = name then (sp.1, sp.2 + v) else sp)

/-- Body of the first loop of scoreUnlocked (src/bayes/bayes.go lines 193-198): one
step threads the store through a read-only LookupCategory call, records the category
under its name, and skips names whose lookup fails. -/
def collectCategoriesByName (acc : Categories × List (String × Category))
    (key : String) : Categories × List (String × Category) :=
  match acc.1.LookupCategory key with
  | some cat => (acc.1, acc.2 ++ [(key, cat)])
  | none => (acc.1, acc.2)

/-- Body of the token loop of scoreUnlocked (src/bayes/bayes.go lines 201-222): one
step builds the per-category tokenScores map for the token, sums it into tokenTally,
skips the token entirely when that tally is zero, and otherwise performs
scores[name] += count times the Bayesian contribution for every category. -/
def scoreTokenStep (categoriesByName : List (String × Category))
    (scores : List (String × ℚ)) (wp : String × Int) : List (String × ℚ) :=
  let tokenScores := categoriesByName.map
    (fun p => (p.1, ((p.2.GetTokenCount wp.1 : ℚ))))
  let tokenTally := (tokenScores.map Prod.snd).sum
  if tokenTally = 0 then scores
  else
    categoriesByName.foldl (fun scores p =>
        scoresAdd scores p.1
          ((wp.2 : ℚ) *
            calculateBayesianProbability p.2 ((p.2.GetTokenCount wp.1 : ℚ)) tokenTally))
      scores

/-- scoreUnlocked from src/bayes/bayes.go lines 187-232 as a state transformer: the
first loop walks the category names, threading the store through the read-only
LookupCategory calls while initializing every score to zero; the token loop adds the
per-token Bayesian contributions; the final loop keeps only strictly positive
scores. -/
def Classifier.scoreUnlocked (tok : String → List String) (c : Classifier)
    (text : String) : Classifier × List (String × ℚ) :=
  let occurrences := countTokenOccurrences (tok text)
  let names := c.categories.Names
  let acc := names.foldl collectCategoriesByName (c.categories, [])
  let categoriesByName := acc.2
  let scores := occurrences.foldl (scoreTokenStep categoriesByName)
    (names.map (fun n => (n, (0 : ℚ))))
  ({ categories := acc.1 }, scores.filter (fun p => decide (p.2 > 0)))

/-- Score from src/bayes/bayes.go lines 173-178. -/
def Classifier.Score (tok : String → List String) (c : Classifier) (text : String) :
    Classifier × List (String × ℚ) :=
  c.scoreUnlocked tok text

/-- Classification result record (src/bayes/bayes.go lines 17-20). -/
structure Classification where
  category : String
  score : ℚ
deriving Repr, DecidableEq

/-- Decidability of the lexicographic string order through the character lists, so
that sort comparisons evaluate inside the kernel (the default instance goes through
String.ltb, whose iterator recursion does not reduce there). -/
instance (priority := high) stringDecLe : DecidableRel (fun a b : String => a ≤ b) :=
  fun a b => decidable_of_iff (a.data ≤ b.data)
    (by show a.data ≤ b.data ↔ a ≤ b; rw [String.le_iff_toList_le]; rfl)

/-- The selection loop of Classify (src/bayes/bayes.go lines 161-167): scan the
names in order, read each score from the map, and keep the entry whose score
strictly exceeds the running best. -/
def classifyFold (scores : List (String × ℚ)) (r : Classification)
    (ns : List String) : Classification :=
  ns.foldl (fun result name =>
    let score := (List.lookup name scores).getD 0
    if score > result.score then { category := name, score := score } else result) r

/-- Classify from src/bayes/bayes.go lines 143-170: scores the text, returns the
empty result when nothing scored, and otherwise scans the score map in sorted name
order keeping the entry whose score strictly exceeds the running best. -/
def Classifier.Classify (tok : String → List String) (c : Classifier) (text : String) :
    Classifier × Classification :=
  let res := c.scoreUnlocked tok text
  if res.2.isEmpty then
    (res.1, { category := "", score := 0 })
  else
    let names := (res.2.map Prod.fst).insertionSort (fun a b => a ≤ b)
    (res.1, classifyFold res.2 { category := "", score := 0 } names)

/-- Summaries from src/bayes/bayes.go lines 181-185, threading the ensure pass that
Categories.Summaries performs. -/
def Classifier.Summaries (c : Classifier) : Classifier × List (String × CategorySummary) :=
  let res := c.categories.Summaries
  ({ categories := res.1 }, res.2)

/-- Persisted per-category state (PersistedCategory of the category package; its
declaration is used by src/bayes/persistence.go line 39 and the tests). -/
structure PersistedCategory where
  tokens : TokenMap
  tally : Int
deriving Repr, DecidableEq

/-- modelState from src/bayes/persistence.go lines 37-40. -/
structure ModelState where
  version : Int
  categories : List (String × PersistedCategory)
deriving Repr, DecidableEq

/-- persistedModelVersion from src/bayes/persistence.go line 14. -/
def persistedModelVersion : Int := 1

/-- Validation errors of src/bayes/persistence.go lines 28-31. -/
inductive PersistenceErr where
  | unsupportedVersion
  | invalidCategoryName
  | invalidTokenCount
  | invalidCategoryTally
deriving Repr, DecidableEq

/-- Token loop of validateModelState (src/bayes/persistence.go lines 152-158): the
first empty token or non-positive count is an error. -/
def validateCategoryTokens : TokenMap → Option PersistenceErr
  | [] => none
  | (token, count) :: rest =>
      if token = "" ∨ count ≤ 0 then some PersistenceErr.invalidTokenCount
      else validateCategoryTokens rest

/-- Per-category body of validateModelState (src/bayes/persistence.go lines 143-163):
name pattern, non-negative tally, well-formed tokens, and tally equal to the token
count sum, in the order the source checks them. -/
def validateCategory (name : String) (cat : PersistedCategory) : Option PersistenceErr :=
  if !matchesNamePattern name then some PersistenceErr.invalidCategoryName
  else if cat.tally < 0 then some PersistenceErr.invalidCategoryTally
  else
    match validateCategoryTokens cat.tokens with
    | some e => some e
    | none =>
        if tokensSum cat.tokens ≠ cat.tally then some PersistenceErr.invalidCategoryTally
        else none

/-- Category loop of validateModelState: the first failing category is reported. -/
def validateCategories : List (String × PersistedCategory) → Option PersistenceErr
  | [] => none
  | (name, cat) :: rest =>
      match validateCategory name cat with
      | some e => some e
      | none => validateCategories rest

/-- validateModelState from src/bayes/persistence.go lines 138-166. -/
def validateModelState (state : ModelState) : Option PersistenceErr :=
  if state.version ≠ persistedModelVersion then some PersistenceErr.unsupportedVersion
  else validateCategories state.categories

/-- Modelled from the spec: ExportStates of the category package is called by
src/bayes/persistence.go line 51 but its definition is not among the source files.
Spec section 4.2 exportState produces the persisted snapshot structure of section 3:
per category name, its token map and its tally. -/
def Categories.ExportStates (cats : Categories) : List (String × PersistedCategory) :=
  cats.categories.map (fun p => (p.1, { tokens := p.2.tokens, tally := p.2.tally }))

/-- Modelled from the spec: ReplaceStates of the category package is called by
src/bayes/persistence.go line 78 but its definition is not among the source files.
Spec section 4.2 replaceState, on success, atomically swaps the entire category set
(no partial merge with prior state) and marks probabilities dirty; each category is
rebuilt from its snapshot tokens and tally with freshly initialized priors. Load
validates the snapshot itself beforehand and discards the inner error. -/
def Categories.ReplaceStates (states : List (String × PersistedCategory)) : Categories :=
  { categories := states.map (fun p =>
      (p.1, { name := p.1, tokens := p.2.tokens, tally := p.2.tally,
              probInCat := 0, probNotInCat := 0 })),
    probabilitiesDirty := true }

/-- Save from src/bayes/persistence.go lines 43-60: the nil-writer guard and the gob
encoding are I/O; the model state written out is the version tag plus the exported
category states. -/
def Classifier.Save (c : Classifier) : ModelState :=
  { version := persistedModelVersion, categories := c.categories.ExportStates }

/-- Load from src/bayes/persistence.go lines 63-86, taking the already-decoded model
state (the nil-reader guard and gob decoding are I/O): validation failure returns the
error with the classifier untouched; on success a fresh store is built from the
snapshot, marked dirty, and swapped in whole. -/
def Classifier.Load (c : Classifier) (state : ModelState) :
    Classifier × Option PersistenceErr :=
  match validateModelState state with
  | some e => (c, some e)
  | none =>
      let cats := Categories.ReplaceStates state.categories
      let cats := cats.MarkProbabilitiesDirty
      ({ categories := cats }, none)

/-- Snapshot validity following the wording of claim C5 and spec section 3: supported
version, and for every category a pattern-matching name, a non-negative tally, only
non-empty tokens with strictly positive counts, and a tally equal to the sum of the
token counts. This definition follows the words of the spec and is compared with the
validation code embedded above. -/
def snapshotValid (state : ModelState) : Prop :=
  state.version = persistedModelVersion ∧
  ∀ p ∈ state.categories,
    matchesNamePattern p.1 = true ∧
    0 ≤ p.2.tally ∧
    (∀ q ∈ p.2.tokens, q.1 ≠ "" ∧ 0 < q.2) ∧
    tokensSum p.2.tokens = p.2.tally

instance (state : ModelState) : Decidable (snapshotValid state) := by
  unfold snapshotValid
  infer_instance

/-- Per-token contribution following the wording of claim C3: numerator is
(tokenScore / tokenTally) times probInCat, denominator is the numerator plus
((tokenTally - tokenScore) / tokenTally) times probNotInCat, and the contribution is
0 when the denominator is 0. This definition follows the words of the spec and is
compared with calculateBayesianProbability embedded from the source. -/
def specContribution (cat : Category) (tokenScore tokenTally : ℚ) : ℚ :=
  let numerator := (tokenScore / tokenTally) * cat.probInCat
  let denominator := numerator + ((tokenTally - tokenScore) / tokenTally) * cat.probNotInCat
  if denominator = 0 then 0 else numerator / denominator

/-- Sum of one token's trained counts across all categories (the tokenTally of
claim C3). -/
def specTokenTally (entries : List (String × Category)) (word : String) : ℚ :=
  (entries.map (fun q => ((q.2.GetTokenCount word : ℚ)))).sum

/-- The tokenTally expression as scoreUnlocked computes it: the snd-projection sum
of the per-category tokenScores map (this matches the body of scoreTokenStep
definitionally). -/
def tokenTallyFor (cbn : List (String × Category)) (word : String) : ℚ :=
  ((cbn.map (fun p => (p.1, ((p.2.GetTokenCount word : ℚ))))).map Prod.snd).sum

/-- Reference per-token scoring computation following the wording of claim C3:
tokenize and count distinct-token sample occurrences; each category accumulates, over
the distinct tokens, sampleCount times the contribution (tokens with tokenTally zero
contribute nothing); the result keeps exactly the categories whose accumulated score
is strictly positive. This definition follows the words of the spec and is compared
with the embedded scoreUnlocked. -/
def specScore (tok : String → List String) (c : Classifier) (text : String) :
    List (String × ℚ) :=
  let occurrences := countTokenOccurrences (tok text)
  let entries := c.categories.categories
  (entries.map (fun p =>
    (p.1, (occurrences.map (fun wp =>
        let tokenTally := specTokenTally entries wp.1
        if tokenTally = 0 then 0
        else (wp.2 : ℚ) *
          specContribution p.2 ((p.2.GetTokenCount wp.1 : ℚ)) tokenTally)).sum))).filter
    (fun p => decide (p.2 > 0))

/-- One public mutation of claim C6: a Train or an Untrain call. -/
inductive TrainOp where
  | train (category text : String)
  | untrain (category text : String)
deriving Repr, DecidableEq

/-- Application of one mutation to the classifier. -/
def applyOp (tok : String → List String) (c : Classifier) : TrainOp → Classifier
  | TrainOp.train category text => (Classifier.Train tok c category text).1
  | TrainOp.untrain category text => (Classifier.Untrain tok c category text).1

/-- Application of a finite sequence of train and untrain calls. -/
def applyOps (tok : String → List String) (c : Classifier) (ops : List TrainOp) :
    Classifier :=
  ops.foldl (applyOp tok) c

/-- Well-formedness of one category as claim C6 concerns it, strengthened into an
inductive invariant: unique token keys (Go map keys are unique), strictly positive
stored counts, and a tally equal to the sum of the counts. -/
def catWF (cat : Category) : Prop :=
  (cat.tokens.map Prod.fst).Nodup ∧ (∀ q ∈ cat.tokens, 0 < q.2) ∧
  cat.tally = tokensSum cat.tokens

/-- Well-formedness of every stored category. -/
def storeWF (cats : Categories) : Prop :=
  ∀ p ∈ cats.categories, catWF p.2

/-! Basic lemmas about the token map model. -/

theorem tokensGet_nil (k : String) : tokensGet [] k = 0 := rfl

theorem tokensGet_cons (a : String) (b : Int) (t : TokenMap) (k : String) :
    tokensGet ((a, b) :: t) k = if k = a then b else tokensGet t k := by
  by_cases h : k = a
  · subst h; simp [tokensGet, List.lookup]
  · have hb : (k == a) = false := by simpa using h
    simp [tokensGet, List.lookup, h, hb]

theorem tokensHas_cons (a : String) (b : Int) (t : TokenMap) (k : String) :
    tokensHas ((a, b) :: t) k = (k = a || tokensHas t k) := by
  by_cases h : k = a
  · subst h; simp [tokensHas, List.lookup]
  · have hb : (k == a) = false := by simpa using h
    simp [tokensHas, List.lookup, h, hb]

theorem tokensGet_tokensAdd_self (m : TokenMap) (k : String) (v : Int) :
    tokensGet (tokensAdd m k v) k = tokensGet m k + v := by
  induction m with
  | nil => simp [tokensAdd, tokensGet_cons, tokensGet_nil]
  | cons p t ih =>
      obtain ⟨a, b⟩ := p
      by_cases h : a = k
      · subst h; simp [tokensAdd, tokensGet_cons]
      · simp [tokensAdd, h, tokensGet_cons, Ne.symm h, ih]

theorem tokensGet_tokensAdd_ne (m : TokenMap) (k : String) (v : Int) (w : String)
    (hw : w ≠ k) : tokensGet (tokensAdd m k v) w = tokensGet m w := by
  induction m with
  | nil => simp [tokensAdd, tokensGet_cons, tokensGet_nil, hw]
  | cons p t ih =>
      obtain ⟨a, b⟩ := p
      by_cases h : a = k
      · subst h
        simp [tokensAdd, tokensGet_cons, hw]
      · simp [tokensAdd, h, tokensGet_cons, ih]

theorem lookup_tokensDelete_self (m : TokenMap) (k : String) :
    List.lookup k (tokensDelete m k) = none := by
  induction m with
  | nil => rfl
  | cons p t ih =>
      obtain ⟨a, b⟩ := p
      unfold tokensDelete at ih ⊢
      rw [List.filter_cons]
      by_cases h : a = k
      · subst h
        rw [if_neg (by simp)]
        exact ih
      · rw [if_pos (by simpa using h)]
        have hb : (k == a) = false := by simpa using Ne.symm h
        simp only [List.lookup, hb]
        exact ih

theorem tokensHas_tokensDelete_self (m : TokenMap) (k : String) :
    tokensHas (tokensDelete m k) k = false := by
  unfold tokensHas
  rw [lookup_tokensDelete_self]
  rfl

theorem tokensGet_tokensDelete_ne (m : TokenMap) (k w : String) (hw : w ≠ k) :
    tokensGet (tokensDelete m k) w = tokensGet m w := by
  induction m with
  | nil => rfl
  | cons p t ih =>
      obtain ⟨a, b⟩ := p
      unfold tokensDelete at ih ⊢
      rw [List.filter_cons]
      by_cases h : a = k
      · subst h
        rw [if_neg (by simp)]
        rw [tokensGet_cons, if_neg hw]
        exact ih
      · rw [if_pos (by simpa using h)]
        rw [tokensGet_cons, tokensGet_cons]
        by_cases hwa : w = a
        · rw [if_pos hwa, if_pos hwa]
        · rw [if_neg hwa, if_neg hwa]
          exact ih

/-- C2: for every token and every count at most zero, TrainToken and UntrainToken
fail with the invalid-count error and leave the token map and the tally unchanged;
for every positive count TrainToken succeeds, adds count to the entry of the trained
token (creating it at count when absent), leaves every other token untouched, and
adds count to the tally. -/
theorem trainToken_untrainToken_count_contract :
    ∀ (cat : Category) (word : String) (count : Int),
      (count ≤ 0 →
        cat.TrainToken word count = (cat, some CategoryErr.invalidTokenCount) ∧
        cat.UntrainToken word count = (cat, some CategoryErr.invalidTokenCount)) ∧
      (0 < count →
        (cat.TrainToken word count).2 = none ∧
        (cat.TrainToken word count).1.GetTokenCount word
          = cat.GetTokenCount word + count ∧
        (∀ w, w ≠ word →
          (cat.TrainToken word count).1.GetTokenCount w = cat.GetTokenCount w) ∧
        (cat.TrainToken word count).1.GetTally = cat.GetTally + count) := by
  intro cat word count
  constructor
  · intro hle
    constructor
    · simp [Category.TrainToken, hle]
    · simp [Category.UntrainToken, hle]
  · intro hpos
    have hnot : ¬ count ≤ 0 := by omega
    refine ⟨by simp [Category.TrainToken, hnot], ?_, ?_, ?_⟩
    · simp [Category.TrainToken, hnot, Category.GetTokenCount, tokensGet_tokensAdd_self]
    · intro w hw
      simp [Category.TrainToken, hnot, Category.GetTokenCount,
        tokensGet_tokensAdd_ne _ _ _ _ hw]
    · simp [Category.TrainToken, hnot, Category.GetTally]

/-- Witness for C2 at a concrete category, token and counts. -/
theorem trainToken_untrainToken_count_contract_witness :
    (NewCategory "spam").TrainToken "buy" 0
        = (NewCategory "spam", some CategoryErr.invalidTokenCount) ∧
    (NewCategory "spam").UntrainToken "buy" (-3)
        = (NewCategory "spam", some CategoryErr.invalidTokenCount) ∧
    ((NewCategory "spam").TrainToken "buy" 2).1.GetTokenCount "buy" = 2 ∧
    ((NewCategory "spam").TrainToken "buy" 2).1.GetTally = 2 := by
  refine ⟨((trainToken_untrainToken_count_contract (NewCategory "spam") "buy" 0).1
      (by decide)).1,
    ((trainToken_untrainToken_count_contract (NewCategory "spam") "buy" (-3)).1
      (by decide)).2, ?_, ?_⟩
  · have h := ((trainToken_untrainToken_count_contract (NewCategory "spam") "buy" 2).2
      (by decide)).2.1
    simpa using h
  · have h := ((trainToken_untrainToken_count_contract (NewCategory "spam") "buy" 2).2
      (by decide)).2.2.2
    simpa using h

/-- C1: for every positive count, the live UntrainToken (src/unnamed/part_007, the
Category implementation the v3 classifier compiles against) behaves as claimed: an
absent token is a no-op and not an error; a count at least the stored count removes
the entry entirely and drops the tally by the full prior count; a smaller count
decrements both the entry and the tally by exactly count. In particular, training
spam on buy-now-buy-now gives tally 4 with buy at 2, untraining buy-now takes the
tally to 2, and untraining buy-now once more removes the spam category. -/
theorem untrainToken_contract :
    (∀ (cat : Category) (word : String) (count : Int), 0 < count →
      (tokensHas cat.tokens word = false →
        cat.UntrainToken word count = (cat, none)) ∧
      (tokensHas cat.tokens word = true →
        count ≥ tokensGet cat.tokens word →
          (cat.UntrainToken word count).2 = none ∧
          tokensHas (cat.UntrainToken word count).1.tokens word = false ∧
          (∀ w, w ≠ word →
            (cat.UntrainToken word count).1.GetTokenCount w = cat.GetTokenCount w) ∧
          (cat.UntrainToken word count).1.GetTally
            = cat.GetTally - cat.GetTokenCount word) ∧
      (tokensHas cat.tokens word = true →
        count < tokensGet cat.tokens word →
          (cat.UntrainToken word count).2 = none ∧
          (cat.UntrainToken word count).1.GetTokenCount word
            = cat.GetTokenCount word - count ∧
          (∀ w, w ≠ word →
            (cat.UntrainToken word count).1.GetTokenCount w = cat.GetTokenCount w) ∧
          (cat.UntrainToken word count).1.GetTally = cat.GetTally - count)) ∧
    (Classifier.Train tokenizeText NewClassifier "spam" "buy now buy now").1.categories.LookupCategory
        "spam"
      = some { name := "spam", tokens := [("buy", 2), ("now", 2)], tally := 4,
               probNotInCat := 0, probInCat := 1 } ∧
    (Classifier.Untrain tokenizeText
        (Classifier.Train tokenizeText NewClassifier "spam" "buy now buy now").1
        "spam" "buy now").1.categories.LookupCategory "spam"
      = some { name := "spam", tokens := [("buy", 1), ("now", 1)], tally := 2,
               probNotInCat := 0, probInCat := 1 } ∧
    (Classifier.Untrain tokenizeText
        (Classifier.Untrain tokenizeText
          (Classifier.Train tokenizeText NewClassifier "spam" "buy now buy now").1
          "spam" "buy now").1
        "spam" "buy now").1.categories.LookupCategory "spam"
      = none := by
  refine ⟨?_, by decide, by decide, by decide⟩
  intro cat word count hpos
  have hn : ¬ count ≤ 0 := by omega
  refine ⟨?_, ?_, ?_⟩
  · intro habs
    unfold Category.UntrainToken
    rw [if_neg hn, if_neg (by simp [habs])]
  · intro hhas hge
    unfold Category.UntrainToken
    rw [if_neg hn, if_pos hhas, if_pos hge]
    refine ⟨rfl, ?_, ?_, rfl⟩
    · exact tokensHas_tokensDelete_self _ _
    · intro w hw
      show tokensGet (tokensDelete cat.tokens word) w = tokensGet cat.tokens w
      exact tokensGet_tokensDelete_ne _ _ _ hw
  · intro hhas hlt
    unfold Category.UntrainToken
    rw [if_neg hn, if_pos hhas, if_neg (by omega)]
    refine ⟨rfl, ?_, ?_, rfl⟩
    · show tokensGet (tokensAdd cat.tokens word (-count)) word
        = tokensGet cat.tokens word - count
      rw [tokensGet_tokensAdd_self]
      omega
    · intro w hw
      show tokensGet (tokensAdd cat.tokens word (-count)) w = tokensGet cat.tokens w
      exact tokensGet_tokensAdd_ne _ _ _ _ hw

/-- Witness for C1 at a concrete category: untraining an absent token is a no-op,
untraining buy by its full count removes the entry and drops the tally from 4 to 2,
and untraining buy by 1 leaves buy at 1 with tally 3. -/
theorem untrainToken_contract_witness :
    ({ name := "spam", tokens := [("buy", 2), ("now", 2)], tally := 4,
       probNotInCat := 0, probInCat := 0 } : Category).UntrainToken "miss" 1
      = ({ name := "spam", tokens := [("buy", 2), ("now", 2)], tally := 4,
           probNotInCat := 0, probInCat := 0 }, none) ∧
    tokensHas (({ name := "spam", tokens := [("buy", 2), ("now", 2)], tally := 4,
                  probNotInCat := 0, probInCat := 0 } : Category).UntrainToken
        "buy" 2).1.tokens "buy" = false ∧
    (({ name := "spam", tokens := [("buy", 2), ("now", 2)], tally := 4,
        probNotInCat := 0, probInCat := 0 } : Category).UntrainToken
        "buy" 2).1.GetTally = 2 ∧
    (({ name := "spam", tokens := [("buy", 2), ("now", 2)], tally := 4,
        probNotInCat := 0, probInCat := 0 } : Category).UntrainToken
        "buy" 1).1.GetTokenCount "buy" = 1 ∧
    (({ name := "spam", tokens := [("buy", 2), ("now", 2)], tally := 4,
        probNotInCat := 0, probInCat := 0 } : Category).UntrainToken
        "buy" 1).1.GetTally = 3 := by
  refine ⟨?_, ?_, ?_, ?_, ?_⟩
  · exact (untrainToken_contract.1
      { name := "spam", tokens := [("buy", 2), ("now", 2)], tally := 4,
        probNotInCat := 0, probInCat := 0 } "miss" 1 (by decide)).1 (by decide)
  · exact ((untrainToken_contract.1
      { name := "spam", tokens := [("buy", 2), ("now", 2)], tally := 4,
        probNotInCat := 0, probInCat := 0 } "buy" 2 (by decide)).2.1 (by decide)
      (by decide)).2.1
  · have h := ((untrainToken_contract.1
      { name := "spam", tokens := [("buy", 2), ("now", 2)], tally := 4,
        probNotInCat := 0, probInCat := 0 } "buy" 2 (by decide)).2.1 (by decide)
      (by decide)).2.2.2
    simpa using h
  · have h := ((untrainToken_contract.1
      { name := "spam", tokens := [("buy", 2), ("now", 2)], tally := 4,
        probNotInCat := 0, probInCat := 0 } "buy" 1 (by decide)).2.2 (by decide)
      (by decide)).2.1
    simpa using h
  · have h := ((untrainToken_contract.1
      { name := "spam", tokens := [("buy", 2), ("now", 2)], tally := 4,
        probNotInCat := 0, probInCat := 0 } "buy" 1 (by decide)).2.2 (by decide)
      (by decide)).2.2.2
    simpa using h

/-- C7: the code evaluated at the failing sequence. Training an existing category
changes its token counts and tally but never sets the probabilitiesDirty flag (no
store mutation runs on that path), so EnsureCategoryProbabilities at the end of
Train is a no-op: after training a on x, b on y and a on x again, the flag is false
while category a holds probInCat one half even though its tally of 2 against the
total tally of 3 demands two thirds. -/
theorem probabilities_stale_with_clean_flag_code_bug :
    (Classifier.Train tokenizeText
        (Classifier.Train tokenizeText
          (Classifier.Train tokenizeText NewClassifier "a" "x").1 "b" "y").1
        "a" "x").1.categories.probabilitiesDirty = false ∧
    (Classifier.Train tokenizeText
        (Classifier.Train tokenizeText
          (Classifier.Train tokenizeText NewClassifier "a" "x").1 "b" "y").1
        "a" "x").1.categories.LookupCategory "a"
      = some { name := "a", tokens := [("x", 2)], tally := 2,
               probNotInCat := 1 / 2, probInCat := 1 / 2 } ∧
    (Classifier.Train tokenizeText
        (Classifier.Train tokenizeText
          (Classifier.Train tokenizeText NewClassifier "a" "x").1 "b" "y").1
        "a" "x").1.categories.totalTally = 3 ∧
    (2 : ℚ) / 3 ≠ 1 / 2 := by
  decide

/-- C9: the code evaluated at the failing input. Load validates and installs the
snapshot but only marks the priors dirty, and neither Score nor Classify ever runs
EnsureCategoryProbabilities (only Train, Untrain, Flush and Summaries do), so the
loaded categories keep their zero-initialized priors: every Bayesian contribution is
zero and the loaded classifier scores nothing, while the original classifier scored
the same query at 1. The round trip therefore does not reproduce classify and score
results, contrary to the claim and to TestPersistenceRoundTrip in
src/bayes/persistence_test.go. -/
theorem save_load_roundtrip_code_bug :
    (Classifier.Load NewClassifier
        (Classifier.Train tokenizeText NewClassifier "a" "x").1.Save).2 = none ∧
    (Classifier.Score tokenizeText
        (Classifier.Train tokenizeText NewClassifier "a" "x").1 "x").2 = [("a", 1)] ∧
    (Classifier.Score tokenizeText
        (Classifier.Load NewClassifier
          (Classifier.Train tokenizeText NewClassifier "a" "x").1.Save).1 "x").2 = [] ∧
    (Classifier.Classify tokenizeText
        (Classifier.Train tokenizeText NewClassifier "a" "x").1 "x").2
      = { category := "a", score := 1 } ∧
    (Classifier.Classify tokenizeText
        (Classifier.Load NewClassifier
          (Classifier.Train tokenizeText NewClassifier "a" "x").1.Save).1 "x").2
      = { category := "", score := 0 } := by
  decide

/-- C8: a category argument rejected by the name pattern makes Train and Untrain
return the invalid-category-name error with the classifier state untouched. -/
theorem train_untrain_reject_invalid_name :
    ∀ (tok : String → List String) (c : Classifier) (category text : String),
      matchesNamePattern category = false →
      Classifier.Train tok c category text
          = (c, some ClassifierErr.invalidCategoryName) ∧
      Classifier.Untrain tok c category text
          = (c, some ClassifierErr.invalidCategoryName) := by
  intro tok c category text h
  exact ⟨by simp [Classifier.Train, h], by simp [Classifier.Untrain, h]⟩

/-- Witness for C8: the name with an exclamation mark and the empty name fail the
pattern and are rejected by Train and Untrain without touching the fresh state. -/
theorem train_untrain_reject_invalid_name_witness :
    matchesNamePattern "spam!" = false ∧
    Classifier.Train tokenizeText NewClassifier "spam!" "buy now"
        = (NewClassifier, some ClassifierErr.invalidCategoryName) ∧
    Classifier.Untrain tokenizeText NewClassifier "" "buy now"
        = (NewClassifier, some ClassifierErr.invalidCategoryName) := by
  refine ⟨by decide, ?_, ?_⟩
  · exact (train_untrain_reject_invalid_name tokenizeText NewClassifier "spam!"
      "buy now" (by decide)).1
  · exact (train_untrain_reject_invalid_name tokenizeText NewClassifier ""
      "buy now" (by decide)).2


/-! Validation lemmas for the persisted snapshot. -/

theorem validateCategoryTokens_eq_none_iff (m : TokenMap) :
    validateCategoryTokens m = none ↔ ∀ q ∈ m, q.1 ≠ "" ∧ 0 < q.2 := by
  induction m with
  | nil => simp [validateCategoryTokens]
  | cons q t ih =>
      obtain ⟨a, b⟩ := q
      by_cases hcond : a = "" ∨ b ≤ 0
      · have he : validateCategoryTokens ((a, b) :: t)
            = some PersistenceErr.invalidTokenCount := by
          unfold validateCategoryTokens
          rw [if_pos hcond]
        rw [he]
        constructor
        · intro hc; exact absurd hc (by simp)
        · intro hall
          have hh := hall (a, b) (List.mem_cons_self _ _)
          rcases hcond with h | h
          · exact absurd h hh.1
          · have := hh.2; omega
      · push_neg at hcond
        obtain ⟨ha, hb⟩ := hcond
        have he : validateCategoryTokens ((a, b) :: t) = validateCategoryTokens t := by
          conv_lhs => rw [validateCategoryTokens]
          rw [if_neg (by push_neg; exact ⟨ha, hb⟩)]
        rw [he, ih]
        constructor
        · intro h q hq
          rcases List.mem_cons.1 hq with rfl | hq
          · exact ⟨ha, hb⟩
          · exact h q hq
        · intro h q hq
          exact h q (List.mem_cons_of_mem _ hq)

theorem validateCategory_eq_none_iff (n : String) (cat : PersistedCategory) :
    validateCategory n cat = none ↔
      matchesNamePattern n = true ∧ 0 ≤ cat.tally ∧
      (∀ q ∈ cat.tokens, q.1 ≠ "" ∧ 0 < q.2) ∧
      tokensSum cat.tokens = cat.tally := by
  by_cases h1 : matchesNamePattern n = true
  · by_cases h2 : cat.tally < 0
    · have he : validateCategory n cat = some PersistenceErr.invalidCategoryTally := by
        unfold validateCategory
        rw [h1]
        simp [h2]
      rw [he]
      constructor
      · intro hc; exact absurd hc (by simp)
      · rintro ⟨-, h3, -, -⟩; omega
    · cases hv : validateCategoryTokens cat.tokens with
      | some e =>
          have he : validateCategory n cat = some e := by
            unfold validateCategory
            rw [h1]
            simp [h2, hv]
          rw [he]
          constructor
          · intro hc; exact absurd hc (by simp)
          · rintro ⟨-, -, htok, -⟩
            rw [(validateCategoryTokens_eq_none_iff _).2 htok] at hv
            exact absurd hv (by simp)
      | none =>
          have htok := (validateCategoryTokens_eq_none_iff _).1 hv
          by_cases h3 : tokensSum cat.tokens = cat.tally
          · have he : validateCategory n cat = none := by
              unfold validateCategory
              rw [h1]
              simp [h2, hv, h3]
            rw [he]
            constructor
            · intro _; exact ⟨h1, by omega, htok, h3⟩
            · intro _; rfl
          · have he : validateCategory n cat
                = some PersistenceErr.invalidCategoryTally := by
              unfold validateCategory
              rw [h1]
              simp [h2, hv, h3]
            rw [he]
            constructor
            · intro hc; exact absurd hc (by simp)
            · rintro ⟨-, -, -, h4⟩; exact absurd h4 h3
  · have h1f : matchesNamePattern n = false := by
      cases hmn : matchesNamePattern n
      · rfl
      · exact absurd hmn h1
    have he : validateCategory n cat = some PersistenceErr.invalidCategoryName := by
      unfold validateCategory
      rw [h1f]
      simp
    rw [he]
    constructor
    · intro hc; exact absurd hc (by simp)
    · rintro ⟨hc, -⟩; exact absurd hc h1

theorem validateCategories_eq_none_iff (l : List (String × PersistedCategory)) :
    validateCategories l = none ↔ ∀ p ∈ l, validateCategory p.1 p.2 = none := by
  induction l with
  | nil => simp [validateCategories]
  | cons p t ih =>
      obtain ⟨n, cat⟩ := p
      cases hv : validateCategory n cat with
      | some e =>
          have he : validateCategories ((n, cat) :: t) = some e := by
            unfold validateCategories
            rw [hv]
          rw [he]
          constructor
          · intro hc; exact absurd hc (by simp)
          · intro h
            have hh := h (n, cat) (List.mem_cons_self _ _)
            rw [hh] at hv
            exact absurd hv (by simp)
      | none =>
          have he : validateCategories ((n, cat) :: t) = validateCategories t := by
            conv_lhs => rw [validateCategories]
            rw [hv]
          rw [he, ih]
          constructor
          · intro h q hq
            rcases List.mem_cons.1 hq with rfl | hq
            · exact hv
            · exact h q hq
          · intro h q hq
            exact h q (List.mem_cons_of_mem _ hq)

theorem validateModelState_eq_none_iff (state : ModelState) :
    validateModelState state = none ↔ snapshotValid state := by
  by_cases h : state.version = persistedModelVersion
  · have he : validateModelState state = validateCategories state.categories := by
      unfold validateModelState
      rw [if_neg (by simp [h])]
    rw [he, validateCategories_eq_none_iff]
    unfold snapshotValid
    constructor
    · intro hall
      exact ⟨h, fun p hp => (validateCategory_eq_none_iff p.1 p.2).1 (hall p hp)⟩
    · rintro ⟨-, hall⟩ p hp
      exact (validateCategory_eq_none_iff p.1 p.2).2 (hall p hp)
  · have he : validateModelState state = some PersistenceErr.unsupportedVersion := by
      unfold validateModelState
      rw [if_pos h]
    rw [he]
    unfold snapshotValid
    constructor
    · intro hc; exact absurd hc (by simp)
    · rintro ⟨h1, -⟩; exact absurd h1 h

/-- C5: Load rejects exactly the snapshots violating the validity invariants
(unsupported version, pattern-failing name, negative tally, empty token or
non-positive count, tally different from the token sum); a rejected load leaves the
classifier exactly as it was, and an accepted load replaces the entire category set
with categories rebuilt from the snapshot (old state discarded, priors
zero-initialized) and marks the probabilities dirty. -/
theorem load_validates_and_replaces_atomically :
    ∀ (c : Classifier) (state : ModelState),
      ((Classifier.Load c state).2 = none ↔ snapshotValid state) ∧
      ((Classifier.Load c state).2 ≠ none → (Classifier.Load c state).1 = c) ∧
      (snapshotValid state →
        (Classifier.Load c state).1.categories.categories
            = state.categories.map (fun p =>
                (p.1, { name := p.1, tokens := p.2.tokens, tally := p.2.tally,
                        probInCat := 0, probNotInCat := 0 })) ∧
        (Classifier.Load c state).1.categories.probabilitiesDirty = true) := by
  intro c state
  cases hv : validateModelState state with
  | some e =>
      have hnv : ¬ snapshotValid state := by
        intro hva
        rw [(validateModelState_eq_none_iff state).2 hva] at hv
        exact absurd hv (by simp)
      refine ⟨?_, ?_, ?_⟩
      · simp [Classifier.Load, hv, hnv]
      · intro _; simp [Classifier.Load, hv]
      · intro hva; exact absurd hva hnv
  | none =>
      refine ⟨?_, ?_, ?_⟩
      · simp [Classifier.Load, hv, (validateModelState_eq_none_iff state).1 hv]
      · intro hne
        exact absurd (by simp [Classifier.Load, hv]) hne
      · intro _
        constructor
        · simp [Classifier.Load, hv, Categories.ReplaceStates,
            Categories.MarkProbabilitiesDirty]
        · simp [Classifier.Load, hv, Categories.ReplaceStates,
            Categories.MarkProbabilitiesDirty]

/-- Witness for C5: a tally-mismatch snapshot (the shape TestLoadRejectsInvalid
PersistedState uses) is rejected and leaves a trained classifier untouched, and a
valid snapshot is installed wholesale with the dirty flag set. -/
theorem load_validates_and_replaces_atomically_witness :
    (Classifier.Load (Classifier.Train tokenizeText NewClassifier "ham" "x").1
        { version := 1,
          categories := [("spam", { tokens := [("buy", 2)], tally := 1 })] }).1
      = (Classifier.Train tokenizeText NewClassifier "ham" "x").1 ∧
    (Classifier.Load NewClassifier
        { version := 1,
          categories := [("spam", { tokens := [("buy", 2), ("now", 1)], tally := 3 })] }).1.categories.categories
      = [("spam", { name := "spam", tokens := [("buy", 2), ("now", 1)], tally := 3,
                    probInCat := 0, probNotInCat := 0 })] ∧
    (Classifier.Load NewClassifier
        { version := 1,
          categories := [("spam", { tokens := [("buy", 2), ("now", 1)], tally := 3 })] }).1.categories.probabilitiesDirty
      = true := by
  refine ⟨?_, ?_, ?_⟩
  · exact (load_validates_and_replaces_atomically
      (Classifier.Train tokenizeText NewClassifier "ham" "x").1
      { version := 1,
        categories := [("spam", { tokens := [("buy", 2)], tally := 1 })] }).2.1
      (by decide)
  · have h := ((load_validates_and_replaces_atomically NewClassifier
      { version := 1,
        categories := [("spam", { tokens := [("buy", 2), ("now", 1)], tally := 3 })] }).2.2
      (by decide)).1
    simpa using h
  · exact ((load_validates_and_replaces_atomically NewClassifier
      { version := 1,
        categories := [("spam", { tokens := [("buy", 2), ("now", 1)], tally := 3 })] }).2.2
      (by decide)).2

/-! Frame lemmas for the read-only scoring path. -/

theorem collectCategoriesByName_foldl_fst (names : List String)
    (acc : Categories × List (String × Category)) :
    (names.foldl collectCategoriesByName acc).1 = acc.1 := by
  induction names generalizing acc with
  | nil => rfl
  | cons n t ih =>
      rw [List.foldl_cons]
      rcases h : Categories.LookupCategory acc.1 n with - | cat
      · rw [show collectCategoriesByName acc n = (acc.1, acc.2) by
          simp [collectCategoriesByName, h]]
        exact ih _
      · rw [show collectCategoriesByName acc n = (acc.1, acc.2 ++ [(n, cat)]) by
          simp [collectCategoriesByName, h]]
        exact ih _

theorem scoreUnlocked_fst (tok : String → List String) (c : Classifier)
    (text : String) : (Classifier.scoreUnlocked tok c text).1 = c := by
  show Classifier.mk
      ((c.categories.Names).foldl collectCategoriesByName (c.categories, [])).1 = c
  rw [collectCategoriesByName_foldl_fst]

/-- C10: Score and Classify leave the classifier state unchanged: the scoring path
threads the store only through read-only lookups (never through the create-on-lookup
GetCategory), so no category is created or deleted and no token count, tally, dirty
flag or cached probability is modified. -/
theorem score_classify_leave_state_unchanged :
    ∀ (tok : String → List String) (c : Classifier) (text : String),
      (Classifier.Score tok c text).1 = c ∧ (Classifier.Classify tok c text).1 = c := by
  intro tok c text
  constructor
  · exact scoreUnlocked_fst tok c text
  · show (if _ then _ else _ : Classifier × Classification).1 = c
    split
    · exact scoreUnlocked_fst tok c text
    · exact scoreUnlocked_fst tok c text

/-! Lemmas feeding the tally invariant of claim C6. -/

theorem lookup_mem {β : Type} (m : List (String × β)) (k : String) (v : β)
    (h : List.lookup k m = some v) : (k, v) ∈ m := by
  induction m with
  | nil => simp [List.lookup] at h
  | cons p t ih =>
      obtain ⟨a, b⟩ := p
      by_cases hk : k = a
      · subst hk
        simp [List.lookup] at h
        subst h
        exact List.mem_cons_self _ _
      · have hb : (k == a) = false := by simpa using hk
        simp [List.lookup, hb] at h
        exact List.mem_cons_of_mem _ (ih h)

theorem tokensGet_nonneg (m : TokenMap) (k : String)
    (h : ∀ q ∈ m, 0 < q.2) : 0 ≤ tokensGet m k := by
  unfold tokensGet
  cases hv : List.lookup k m with
  | none => simp
  | some v =>
      have := h (k, v) (lookup_mem m k v hv)
      simpa using le_of_lt this

theorem tokensGet_of_has (m : TokenMap) (k : String)
    (hk : tokensHas m k = true) : List.lookup k m = some (tokensGet m k) := by
  unfold tokensHas at hk
  cases hv : List.lookup k m with
  | none => rw [hv] at hk; simp at hk
  | some v => simp [tokensGet, hv]

theorem tokensSum_tokensAdd (m : TokenMap) (k : String) (v : Int) :
    tokensSum (tokensAdd m k v) = tokensSum m + v := by
  induction m with
  | nil => simp [tokensAdd, tokensSum]
  | cons p t ih =>
      obtain ⟨a, b⟩ := p
      by_cases h : a = k
      · simp [tokensAdd, h, tokensSum]
        ring
      · simp [tokensAdd, h, tokensSum] at ih ⊢
        omega

theorem mem_tokensAdd (m : TokenMap) (k : String) (v : Int) (q : String × Int)
    (hq : q ∈ tokensAdd m k v) : q ∈ m ∨ q = (k, tokensGet m k + v) := by
  induction m with
  | nil =>
      simp [tokensAdd] at hq
      right
      simp [hq, tokensGet]
  | cons p t ih =>
      obtain ⟨a, b⟩ := p
      by_cases h : a = k
      · subst h
        simp only [tokensAdd, if_pos rfl] at hq
        rcases List.mem_cons.1 hq with rfl | hq
        · right; simp [tokensGet_cons]
        · left; exact List.mem_cons_of_mem _ hq
      · simp only [tokensAdd, if_neg h] at hq
        rcases List.mem_cons.1 hq with rfl | hq
        · left; exact List.mem_cons_self _ _
        · rcases ih hq with hm | he
          · left; exact List.mem_cons_of_mem _ hm
          · right
            rw [he, tokensGet_cons]
            simp [Ne.symm h]

theorem keys_tokensAdd_subset (m : TokenMap) (k : String) (v : Int) (x : String)
    (hx : x ∈ (tokensAdd m k v).map Prod.fst) : x ∈ m.map Prod.fst ∨ x = k := by
  induction m with
  | nil => simp [tokensAdd] at hx; right; exact hx
  | cons p t ih =>
      obtain ⟨a, b⟩ := p
      by_cases h : a = k
      · subst h
        simp only [tokensAdd, if_pos rfl] at hx
        simp at hx ⊢
        tauto
      · simp only [tokensAdd, if_neg h] at hx
        simp at hx ⊢
        rcases hx with rfl | hx
        · tauto
        · rcases ih (by simpa using hx) with hm | he
          · simp at hm; tauto
          · tauto

theorem nodup_keys_tokensAdd (m : TokenMap) (k : String) (v : Int)
    (h : (m.map Prod.fst).Nodup) : ((tokensAdd m k v).map Prod.fst).Nodup := by
  induction m with
  | nil => simp [tokensAdd]
  | cons p t ih =>
      obtain ⟨a, b⟩ := p
      simp only [List.map_cons, List.nodup_cons] at h
      by_cases hk : a = k
      · subst hk
        simp only [tokensAdd, eq_self_iff_true, if_true, List.map_cons,
          List.nodup_cons]
        exact ⟨h.1, h.2⟩
      · simp only [tokensAdd, if_neg hk, List.map_cons, List.nodup_cons]
        refine ⟨?_, ih h.2⟩
        intro hmem
        rcases keys_tokensAdd_subset t k v a hmem with hm | he
        · exact h.1 hm
        · exact hk he

theorem tokensSum_nonneg (m : TokenMap) (h : ∀ q ∈ m, 0 < q.2) :
    0 ≤ tokensSum m := by
  induction m with
  | nil => simp [tokensSum]
  | cons q t ih =>
      have hq := h q (List.mem_cons_self _ _)
      have ht := ih (fun r hr => h r (List.mem_cons_of_mem _ hr))
      simp only [tokensSum, List.map_cons, List.sum_cons] at ht ⊢
      omega

theorem tokensSum_tokensDelete (m : TokenMap) (k : String)
    (hnd : (m.map Prod.fst).Nodup) (hk : tokensHas m k = true) :
    tokensSum (tokensDelete m k) = tokensSum m - tokensGet m k := by
  induction m with
  | nil => simp [tokensHas, List.lookup] at hk
  | cons p t ih =>
      obtain ⟨a, b⟩ := p
      simp only [List.map_cons, List.nodup_cons] at hnd
      by_cases h : k = a
      · subst h
        have hdel : tokensDelete ((k, b) :: t) k = t := by
          unfold tokensDelete
          rw [List.filter_cons, if_neg (by simp)]
          apply List.filter_eq_self.mpr
          intro q hq
          have hqk : q.1 ≠ k := by
            intro hcon
            exact hnd.1 (hcon ▸ List.mem_map_of_mem Prod.fst hq)
          simpa using hqk
        rw [hdel, tokensGet_cons, if_pos rfl]
        simp only [tokensSum, List.map_cons, List.sum_cons]
        omega
      · have hdel : tokensDelete ((a, b) :: t) k = (a, b) :: tokensDelete t k := by
          unfold tokensDelete
          rw [List.filter_cons, if_pos (by simpa using Ne.symm h)]
        have hht : tokensHas t k = true := by
          rw [tokensHas_cons] at hk
          simpa [h] using hk
        have hrec := ih hnd.2 hht
        rw [hdel, tokensGet_cons, if_neg h]
        simp only [tokensSum, List.map_cons, List.sum_cons] at hrec ⊢
        omega

theorem nodup_keys_tokensDelete (m : TokenMap) (k : String)
    (hnd : (m.map Prod.fst).Nodup) : ((tokensDelete m k).map Prod.fst).Nodup := by
  have hsub : List.Sublist ((tokensDelete m k).map Prod.fst) (m.map Prod.fst) :=
    List.Sublist.map Prod.fst (List.filter_sublist m)
  exact List.Nodup.sublist hsub hnd

theorem mem_tokensDelete (m : TokenMap) (k : String) (q : String × Int)
    (hq : q ∈ tokensDelete m k) : q ∈ m :=
  List.mem_of_mem_filter hq

theorem catWF_newCategory (name : String) : catWF (NewCategory name) := by
  refine ⟨by simp [NewCategory], by simp [NewCategory], by simp [NewCategory, tokensSum]⟩

theorem trainToken_catWF (cat : Category) (word : String) (count : Int)
    (h : catWF cat) : catWF (cat.TrainToken word count).1 := by
  unfold Category.TrainToken
  by_cases hc : count ≤ 0
  · rw [if_pos hc]
    exact h
  · rw [if_neg hc]
    obtain ⟨hnd, hpos, hsum⟩ := h
    refine ⟨nodup_keys_tokensAdd _ _ _ hnd, ?_, ?_⟩
    · intro q hq
      rcases mem_tokensAdd _ _ _ q hq with hm | he
      · exact hpos q hm
      · have hge := tokensGet_nonneg cat.tokens word hpos
        rw [he]
        simp only []
        omega
    · simp only [tokensSum_tokensAdd]
      omega

theorem untrainToken_catWF (cat : Category) (word : String) (count : Int)
    (h : catWF cat) : catWF (cat.UntrainToken word count).1 := by
  unfold Category.UntrainToken
  by_cases hc : count ≤ 0
  · rw [if_pos hc]
    exact h
  · rw [if_neg hc]
    obtain ⟨hnd, hpos, hsum⟩ := h
    by_cases hhas : tokensHas cat.tokens word = true
    · rw [if_pos hhas]
      by_cases hge : count ≥ tokensGet cat.tokens word
      · rw [if_pos hge]
        refine ⟨nodup_keys_tokensDelete _ _ hnd, ?_, ?_⟩
        · intro q hq
          exact hpos q (mem_tokensDelete _ _ q hq)
        · simp only [tokensSum_tokensDelete cat.tokens word hnd hhas]
          omega
      · rw [if_neg hge]
        have hget : 0 < tokensGet cat.tokens word - count := by omega
        refine ⟨nodup_keys_tokensAdd _ _ _ hnd, ?_, ?_⟩
        · intro q hq
          rcases mem_tokensAdd _ _ _ q hq with hm | he
          · exact hpos q hm
          · rw [he]
            simp only []
            omega
        · simp only [tokensSum_tokensAdd]
          omega
    · rw [if_neg hhas]
      exact ⟨hnd, hpos, hsum⟩

theorem foldl_trainToken_catWF (occ : TokenMap) (cat : Category) (h : catWF cat) :
    catWF (occ.foldl (fun cat p => (cat.TrainToken p.1 p.2).1) cat) := by
  induction occ generalizing cat with
  | nil => exact h
  | cons q t ih => exact ih _ (trainToken_catWF _ _ _ h)

theorem foldl_untrainToken_catWF (occ : TokenMap) (cat : Category) (h : catWF cat) :
    catWF (occ.foldl (fun cat p => (cat.UntrainToken p.1 p.2).1) cat) := by
  induction occ generalizing cat with
  | nil => exact h
  | cons q t ih => exact ih _ (untrainToken_catWF _ _ _ h)

theorem storeWF_getCategory (cats : Categories) (name : String) (h : storeWF cats) :
    storeWF (cats.GetCategory name).1 ∧ catWF (cats.GetCategory name).2 := by
  unfold Categories.GetCategory
  cases hv : List.lookup name cats.categories with
  | some cat =>
      exact ⟨h, h (name, cat) (lookup_mem _ _ _ hv)⟩
  | none =>
      constructor
      · intro p hp
        unfold Categories.AddCategory at hp
        simp only [] at hp
        rcases List.mem_append.1 hp with hold | hnew
        · exact h p hold
        · rcases List.mem_singleton.1 hnew with rfl
          exact catWF_newCategory name
      · exact catWF_newCategory name

theorem storeWF_setCategory (cats : Categories) (name : String) (cat : Category)
    (hc : catWF cat) (h : storeWF cats) : storeWF (cats.setCategory name cat) := by
  intro p hp
  unfold Categories.setCategory at hp
  simp only [List.mem_map] at hp
  obtain ⟨q, hq, hpe⟩ := hp
  by_cases hqn : q.1 = name
  · rw [if_pos hqn] at hpe
    rw [← hpe]
    exact hc
  · rw [if_neg hqn] at hpe
    rw [← hpe]
    exact h q hq

theorem storeWF_deleteCategory (cats : Categories) (name : String)
    (h : storeWF cats) : storeWF (cats.DeleteCategory name) := by
  intro p hp
  exact h p (List.mem_of_mem_filter hp)

theorem catWF_setProbabilities (cat : Category) (a b : ℚ) (h : catWF cat) :
    catWF (cat.setProbabilities a b) := by
  unfold catWF at h ⊢
  exact h

theorem storeWF_ensure (cats : Categories) (h : storeWF cats) :
    storeWF cats.EnsureCategoryProbabilities := by
  unfold Categories.EnsureCategoryProbabilities
  split
  · exact h
  · intro p hp
    simp only [List.mem_map] at hp
    obtain ⟨q, hq, hpe⟩ := hp
    rw [← hpe]
    exact catWF_setProbabilities _ _ _ (h q hq)

theorem storeWF_cleanUp (cats : Categories) (cat : Category) (h : storeWF cats) :
    storeWF (Classifier.cleanUpCategory cats cat) := by
  unfold Classifier.cleanUpCategory
  split
  · exact storeWF_deleteCategory _ _ h
  · exact h

theorem train_storeWF (tok : String → List String) (c : Classifier)
    (category text : String) (h : storeWF c.categories) :
    storeWF ((Classifier.Train tok c category text).1).categories := by
  unfold Classifier.Train
  by_cases hn : matchesNamePattern category = true
  · rw [if_neg (by simp [hn])]
    exact storeWF_ensure _ (storeWF_cleanUp _ _ (storeWF_setCategory _ _ _
      (foldl_trainToken_catWF _ _ (storeWF_getCategory c.categories category h).2)
      (storeWF_getCategory c.categories category h).1))
  · rw [if_pos (by simp [Bool.not_eq_true] at hn; simp [hn])]
    exact h

theorem untrain_storeWF (tok : String → List String) (c : Classifier)
    (category text : String) (h : storeWF c.categories) :
    storeWF ((Classifier.Untrain tok c category text).1).categories := by
  unfold Classifier.Untrain
  by_cases hn : matchesNamePattern category = true
  · rw [if_neg (by simp [hn])]
    exact storeWF_ensure _ (storeWF_cleanUp _ _ (storeWF_setCategory _ _ _
      (foldl_untrainToken_catWF _ _ (storeWF_getCategory c.categories category h).2)
      (storeWF_getCategory c.categories category h).1))
  · rw [if_pos (by simp [Bool.not_eq_true] at hn; simp [hn])]
    exact h

theorem applyOps_storeWF (tok : String → List String) (ops : List TrainOp)
    (c : Classifier) (h : storeWF c.categories) :
    storeWF (applyOps tok c ops).categories := by
  induction ops generalizing c with
  | nil => exact h
  | cons op t ih =>
      cases op with
      | train category text => exact ih _ (train_storeWF tok c category text h)
      | untrain category text => exact ih _ (untrain_storeWF tok c category text h)

/-- C6: after any finite sequence of Train and Untrain calls on a fresh classifier,
every stored category keeps its tally equal to the sum of its token counts, and the
tally is non-negative. -/
theorem train_untrain_sequences_keep_tally_invariant :
    ∀ (tok : String → List String) (ops : List TrainOp) (p : String × Category),
      p ∈ (applyOps tok NewClassifier ops).categories.categories →
      p.2.GetTally = tokensSum p.2.tokens ∧ 0 ≤ p.2.GetTally := by
  intro tok ops p hp
  have hwf : storeWF (applyOps tok NewClassifier ops).categories :=
    applyOps_storeWF tok ops NewClassifier (by intro q hq; simp [NewClassifier, NewCategories] at hq)
  obtain ⟨hnd, hpos, hsum⟩ := hwf p hp
  refine ⟨hsum, ?_⟩
  rw [show p.2.GetTally = p.2.tally from rfl, hsum]
  exact tokensSum_nonneg _ hpos

/-- Witness for C6 at a concrete sequence: training spam twice and untraining part
of it leaves the spam category with tally equal to its token sum and non-negative. -/
theorem train_untrain_sequences_keep_tally_invariant_witness :
    (("spam",
        { name := "spam", tokens := [("buy", 2), ("now", 2)], tally := 4,
          probNotInCat := 0, probInCat := 1 }) : String × Category).2.GetTally
        = tokensSum
            (("spam",
              { name := "spam", tokens := [("buy", 2), ("now", 2)], tally := 4,
                probNotInCat := 0, probInCat := 1 }) : String × Category).2.tokens
      ∧ (0 : Int)
          ≤ (("spam",
              { name := "spam", tokens := [("buy", 2), ("now", 2)], tally := 4,
                probNotInCat := 0, probInCat := 1 }) : String × Category).2.GetTally :=
  train_untrain_sequences_keep_tally_invariant tokenizeText
    [TrainOp.train "spam" "buy now buy now"]
    ("spam",
      { name := "spam", tokens := [("buy", 2), ("now", 2)], tally := 4,
        probNotInCat := 0, probInCat := 1 })
    (by decide)

/-! Lemmas for the scoring refinement of claim C3. -/

theorem collect_foldl_snd (names : List String) (cats : Categories)
    (init : List (String × Category)) :
    (names.foldl collectCategoriesByName (cats, init)).2
      = init ++ names.filterMap
          (fun n => (cats.LookupCategory n).map (fun cat => (n, cat))) := by
  induction names generalizing init with
  | nil => simp
  | cons n t ih =>
      rw [List.foldl_cons]
      cases hv : cats.LookupCategory n with
      | some cat =>
          rw [show collectCategoriesByName (cats, init) n = (cats, init ++ [(n, cat)])
            from by simp [collectCategoriesByName, hv]]
          rw [ih]
          simp [hv]
      | none =>
          rw [show collectCategoriesByName (cats, init) n = (cats, init)
            from by simp [collectCategoriesByName, hv]]
          rw [ih]
          simp [hv]

theorem lookup_of_mem_nodup {β : Type} (entries : List (String × β))
    (hnd : (entries.map Prod.fst).Nodup) (p : String × β) (hp : p ∈ entries) :
    List.lookup p.1 entries = some p.2 := by
  induction entries with
  | nil => simp at hp
  | cons q t ih =>
      simp only [List.map_cons, List.nodup_cons] at hnd
      rcases List.mem_cons.1 hp with rfl | hp
      · simp [List.lookup]
      · have hne : p.1 ≠ q.1 := by
          intro hcon
          exact hnd.1 (hcon ▸ List.mem_map_of_mem Prod.fst hp)
        have hb : (p.1 == q.1) = false := by simpa using hne
        simp only [List.lookup, hb]
        exact ih hnd.2 hp

theorem filterMap_lookup {β : Type} (l entries : List (String × β))
    (h : ∀ p ∈ l, List.lookup p.1 entries = some p.2) :
    (l.map Prod.fst).filterMap
        (fun n => (List.lookup n entries).map (fun cat => (n, cat))) = l := by
  induction l with
  | nil => simp
  | cons p t ih =>
      have hsome : (fun n => (List.lookup n entries).map (fun cat => (n, cat))) p.1
          = some (p.1, p.2) := by
        show Option.map (fun cat => (p.1, cat)) (List.lookup p.1 entries)
          = some (p.1, p.2)
        rw [h p (List.mem_cons_self _ _)]
        rfl
      rw [List.map_cons]
      simp only [List.filterMap_cons, hsome]
      rw [ih (fun q hq => h q (List.mem_cons_of_mem _ hq))]

theorem foldl_scoresAdd (L : List (String × Category)) (δ : String × Category → ℚ)
    (s : List (String × ℚ)) :
    L.foldl (fun scores p => scoresAdd scores p.1 (δ p)) s
      = s.map (fun sp =>
          (sp.1, sp.2 + ((L.filter (fun p => p.1 = sp.1)).map δ).sum)) := by
  induction L generalizing s with
  | nil => simp
  | cons p L ih =>
      rw [List.foldl_cons, ih]
      unfold scoresAdd
      rw [List.map_map]
      apply List.map_congr_left
      intro sp _
      by_cases h : sp.1 = p.1
      · have hf : List.filter (fun q => decide (q.1 = sp.1)) (p :: L)
            = p :: List.filter (fun q => decide (q.1 = sp.1)) L := by
          rw [List.filter_cons, if_pos (by simp [h.symm])]
        simp only [Function.comp, if_pos h, hf, List.map_cons, List.sum_cons]
        ring_nf
      · have hf : List.filter (fun q => decide (q.1 = sp.1)) (p :: L)
            = List.filter (fun q => decide (q.1 = sp.1)) L := by
          rw [List.filter_cons, if_neg (by simpa using fun hc => h hc.symm)]
        simp only [Function.comp, if_neg h, hf]

theorem scoreTokenStep_eq (cbn : List (String × Category)) (s : List (String × ℚ))
    (wp : String × Int) :
    scoreTokenStep cbn s wp
      = if tokenTallyFor cbn wp.1 = 0 then s
        else cbn.foldl (fun scores p =>
            scoresAdd scores p.1 ((wp.2 : ℚ) * calculateBayesianProbability p.2
              ((p.2.GetTokenCount wp.1 : ℚ)) (tokenTallyFor cbn wp.1))) s := rfl

theorem foldl_scoreTokenStep (cbn : List (String × Category)) (occ : TokenMap)
    (s : List (String × ℚ)) :
    occ.foldl (scoreTokenStep cbn) s
      = s.map (fun sp => (sp.1, sp.2 + (occ.map (fun wp =>
          if tokenTallyFor cbn wp.1 = 0 then 0
          else ((cbn.filter (fun p => p.1 = sp.1)).map
              (fun p => (wp.2 : ℚ) * calculateBayesianProbability p.2
                ((p.2.GetTokenCount wp.1 : ℚ)) (tokenTallyFor cbn wp.1))).sum)).sum)) := by
  induction occ generalizing s with
  | nil => simp
  | cons wp occ ih =>
      rw [List.foldl_cons, scoreTokenStep_eq]
      by_cases h0 : tokenTallyFor cbn wp.1 = 0
      · rw [if_pos h0, ih]
        apply List.map_congr_left
        intro sp _
        simp only [List.map_cons, List.sum_cons, if_pos h0, zero_add]
      · rw [if_neg h0, foldl_scoresAdd, ih, List.map_map]
        apply List.map_congr_left
        intro sp _
        simp only [Function.comp, List.map_cons, List.sum_cons, if_neg h0]
        rw [add_assoc]

theorem tokenTallyFor_eq_spec (cbn : List (String × Category)) (w : String) :
    tokenTallyFor cbn w = specTokenTally cbn w := by
  unfold tokenTallyFor specTokenTally
  rw [List.map_map]
  rfl

theorem filter_key_singleton {β : Type} (entries : List (String × β))
    (hnd : (entries.map Prod.fst).Nodup) (e : String × β) (he : e ∈ entries) :
    entries.filter (fun p => decide (p.1 = e.1)) = [e] := by
  induction entries with
  | nil => simp at he
  | cons q t ih =>
      simp only [List.map_cons, List.nodup_cons] at hnd
      rcases List.mem_cons.1 he with rfl | he
      · rw [List.filter_cons, if_pos (by simp)]
        have hnil : t.filter (fun p => decide (p.1 = e.1)) = [] := by
          rw [List.filter_eq_nil_iff]
          intro p hp
          have hne : p.1 ≠ e.1 := by
            intro hc
            exact hnd.1 (hc ▸ List.mem_map_of_mem Prod.fst hp)
          simpa using hne
        rw [hnil]
      · have hqe : q.1 ≠ e.1 := by
          intro hc
          exact hnd.1 (hc ▸ List.mem_map_of_mem Prod.fst he)
        rw [List.filter_cons, if_neg (by simpa using hqe)]
        exact ih hnd.2 he

theorem specContribution_eq_calc (cat : Category) (ts tt : ℚ) :
    specContribution cat ts tt = calculateBayesianProbability cat ts tt := by
  unfold specContribution calculateBayesianProbability
  simp only [Category.GetProbInCat, Category.GetProbNotInCat]
  rw [show (tt - ts) / tt * cat.probNotInCat + ts / tt * cat.probInCat
      = ts / tt * cat.probInCat + (tt - ts) / tt * cat.probNotInCat from add_comm _ _]
  by_cases h : ts / tt * cat.probInCat + (tt - ts) / tt * cat.probNotInCat = 0
  · rw [if_pos h, if_neg (by simpa using h)]
  · rw [if_neg h, if_pos h]

theorem entry_total_eq (entries : List (String × Category)) (occ : TokenMap)
    (hnd : (entries.map Prod.fst).Nodup) (e : String × Category) (he : e ∈ entries) :
    (occ.map (fun wp =>
        if tokenTallyFor entries wp.1 = 0 then 0
        else ((entries.filter (fun p => p.1 = e.1)).map
            (fun p => (wp.2 : ℚ) * calculateBayesianProbability p.2
              ((p.2.GetTokenCount wp.1 : ℚ)) (tokenTallyFor entries wp.1))).sum)).sum
      = (occ.map (fun wp =>
          let tokenTally := specTokenTally entries wp.1
          if tokenTally = 0 then 0
          else (wp.2 : ℚ) *
            specContribution e.2 ((e.2.GetTokenCount wp.1 : ℚ)) tokenTally)).sum := by
  apply congrArg List.sum
  apply List.map_congr_left
  intro wp _
  simp only [tokenTallyFor_eq_spec]
  by_cases h0 : specTokenTally entries wp.1 = 0
  · rw [if_pos h0, if_pos h0]
  · rw [if_neg h0, if_neg h0, filter_key_singleton entries hnd e he]
    simp [specContribution_eq_calc]

theorem score_snd_eq_spec (tok : String → List String) (c : Classifier)
    (text : String) (hnd : (c.categories.categories.map Prod.fst).Nodup) :
    (Classifier.Score tok c text).2 = specScore tok c text := by
  have hcbn : ((c.categories.Names).foldl collectCategoriesByName (c.categories, [])).2
      = c.categories.categories := by
    rw [collect_foldl_snd, List.nil_append]
    show (c.categories.categories.map Prod.fst).filterMap
        (fun n => (List.lookup n c.categories.categories).map (fun cat => (n, cat)))
        = c.categories.categories
    exact filterMap_lookup _ _ (fun p hp => lookup_of_mem_nodup _ hnd p hp)
  show (List.foldl (scoreTokenStep
        ((c.categories.Names).foldl collectCategoriesByName (c.categories, [])).2)
        ((c.categories.Names).map (fun n => (n, (0 : ℚ))))
        (countTokenOccurrences (tok text))).filter
      (fun p : String × ℚ => decide (p.2 > 0)) = specScore tok c text
  rw [hcbn, foldl_scoreTokenStep]
  have hnames : c.categories.Names = c.categories.categories.map Prod.fst := rfl
  rw [hnames, List.map_map, List.map_map]
  unfold specScore
  refine congrArg
    (fun l : List (String × ℚ) => List.filter (fun p => decide (p.2 > 0)) l) ?_
  apply List.map_congr_left
  intro e he
  show ((e.1 : String), (0 : ℚ) + _) = _
  rw [zero_add]
  exact congrArg (Prod.mk e.1) (entry_total_eq c.categories.categories
    (countTokenOccurrences (tok text)) hnd e he)

/-- C3: the Score result equals the reference per-token computation of the claim:
per distinct token, tokenTally sums the trained counts across all categories; a
zero tokenTally contributes nothing; otherwise every category gains sampleCount
times numerator over denominator (zero when the denominator is zero); and exactly
the strictly positive accumulated scores are returned. -/
theorem score_matches_reference :
    ∀ (tok : String → List String) (c : Classifier) (text : String),
      (c.categories.categories.map Prod.fst).Nodup →
      (Classifier.Score tok c text).2 = specScore tok c text :=
  fun tok c text hnd => score_snd_eq_spec tok c text hnd

/-- Witness for C3 at a concrete classifier: the two-category state trained on
free-prize and team-meeting samples has unique keys, and Score agrees with the
reference computation on a mixed query. -/
theorem score_matches_reference_witness :
    ((((Classifier.Train tokenizeText
          (Classifier.Train tokenizeText NewClassifier "spam" "free prize").1
          "ham" "team meeting").1).categories.categories.map Prod.fst).Nodup) ∧
    (Classifier.Score tokenizeText
        (Classifier.Train tokenizeText
          (Classifier.Train tokenizeText NewClassifier "spam" "free prize").1
          "ham" "team meeting").1 "free meeting").2
      = specScore tokenizeText
          (Classifier.Train tokenizeText
            (Classifier.Train tokenizeText NewClassifier "spam" "free prize").1
            "ham" "team meeting").1 "free meeting" :=
  ⟨by decide, score_matches_reference tokenizeText _ "free meeting" (by decide)⟩

/-! Lemmas for the argmax and tie-break contract of claim C4. -/

theorem score_entries_pos (tok : String → List String) (c : Classifier)
    (text : String) : ∀ p ∈ (Classifier.Score tok c text).2, 0 < p.2 := by
  intro p hp
  have h2 : (Classifier.Score tok c text).2
      = (List.foldl
          (scoreTokenStep
            ((c.categories.Names).foldl collectCategoriesByName (c.categories, [])).2)
          ((c.categories.Names).map (fun n => (n, (0 : ℚ))))
          (countTokenOccurrences (tok text))).filter
        (fun p : String × ℚ => decide (p.2 > 0)) := by
    rfl
  rw [h2] at hp
  have := List.of_mem_filter hp
  simpa using this

theorem score_keys_nodup (tok : String → List String) (c : Classifier)
    (text : String) (hnd : (c.categories.categories.map Prod.fst).Nodup) :
    (((Classifier.Score tok c text).2).map Prod.fst).Nodup := by
  rw [score_snd_eq_spec tok c text hnd]
  unfold specScore
  have hsub : List.Sublist
      ((List.filter (fun p : String × ℚ => decide (p.2 > 0))
        (c.categories.categories.map (fun p =>
          (p.1, (List.map (fun wp =>
            let tokenTally := specTokenTally c.categories.categories wp.1
            if tokenTally = 0 then 0
            else (wp.2 : ℚ) * specContribution p.2 ((p.2.GetTokenCount wp.1 : ℚ))
              tokenTally) (countTokenOccurrences (tok text))).sum)))).map Prod.fst)
      ((c.categories.categories.map (fun p =>
          (p.1, (List.map (fun wp =>
            let tokenTally := specTokenTally c.categories.categories wp.1
            if tokenTally = 0 then 0
            else (wp.2 : ℚ) * specContribution p.2 ((p.2.GetTokenCount wp.1 : ℚ))
              tokenTally) (countTokenOccurrences (tok text))).sum))).map Prod.fst) :=
    List.Sublist.map Prod.fst (List.filter_sublist _)
  refine List.Nodup.sublist hsub ?_
  rw [List.map_map]
  exact hnd

theorem classifyFold_spec (scores : List (String × ℚ)) :
    ∀ (ns : List String), List.Sorted (fun a b => a ≤ b) ns →
      ∀ (r : Classification),
      (∀ n ∈ ns, (List.lookup n scores).getD 0 = r.score → r.category ≤ n) →
      (classifyFold scores r ns = r
        ∨ ∃ n ∈ ns, (classifyFold scores r ns).category = n
            ∧ (classifyFold scores r ns).score = (List.lookup n scores).getD 0) ∧
      (classifyFold scores r ns = r ∨ r.score < (classifyFold scores r ns).score) ∧
      (∀ n ∈ ns, (List.lookup n scores).getD 0 ≤ (classifyFold scores r ns).score) ∧
      (∀ n ∈ ns, (List.lookup n scores).getD 0 = (classifyFold scores r ns).score →
        (classifyFold scores r ns).category ≤ n) := by
  intro ns
  induction ns with
  | nil =>
      intro _ r _
      exact ⟨Or.inl rfl, Or.inl rfl, by simp, by simp⟩
  | cons n t ih =>
      intro hsorted r hr
      have hsort_t : List.Sorted (fun a b => a ≤ b) t := (List.sorted_cons.1 hsorted).2
      have hn_le : ∀ m ∈ t, n ≤ m := (List.sorted_cons.1 hsorted).1
      by_cases hc : (List.lookup n scores).getD 0 > r.score
      · have hstep : classifyFold scores r (n :: t)
            = classifyFold scores
              { category := n, score := (List.lookup n scores).getD 0 } t := by
          show classifyFold scores
              (if (List.lookup n scores).getD 0 > r.score
                then { category := n, score := (List.lookup n scores).getD 0 }
                else r) t = _
          rw [if_pos hc]
        obtain ⟨h1, h2, h3, h4⟩ := ih hsort_t
          { category := n, score := (List.lookup n scores).getD 0 }
          (fun m hm _ => hn_le m hm)
        rw [hstep]
        refine ⟨?_, ?_, ?_, ?_⟩
        · rcases h1 with he | ⟨m, hm, hcat, hsc⟩
          · right
            exact ⟨n, List.mem_cons_self _ _, by rw [he], by rw [he]⟩
          · right
            exact ⟨m, List.mem_cons_of_mem _ hm, hcat, hsc⟩
        · right
          rcases h2 with he | hlt
          · rw [he]
            exact hc
          · exact lt_trans hc hlt
        · intro m hm
          rcases List.mem_cons.1 hm with rfl | hm
          · rcases h2 with he | hlt
            · rw [he]
            · exact le_of_lt hlt
          · exact h3 m hm
        · intro m hm heq
          rcases List.mem_cons.1 hm with rfl | hm
          · rcases h2 with he | hlt
            · rw [he]
            · exact absurd heq (ne_of_lt hlt)
          · exact h4 m hm heq
      · have hstep : classifyFold scores r (n :: t) = classifyFold scores r t := by
          show classifyFold scores
              (if (List.lookup n scores).getD 0 > r.score
                then { category := n, score := (List.lookup n scores).getD 0 }
                else r) t = _
          rw [if_neg hc]
        obtain ⟨h1, h2, h3, h4⟩ := ih hsort_t r
          (fun m hm heq => hr m (List.mem_cons_of_mem _ hm) heq)
        rw [hstep]
        refine ⟨?_, h2, ?_, ?_⟩
        · rcases h1 with he | ⟨m, hm, hcat, hsc⟩
          · left
            exact he
          · right
            exact ⟨m, List.mem_cons_of_mem _ hm, hcat, hsc⟩
        · intro m hm
          rcases List.mem_cons.1 hm with rfl | hm
          · have hle : (List.lookup m scores).getD 0 ≤ r.score := le_of_not_lt hc
            rcases h2 with he | hlt
            · rw [he]
              exact hle
            · exact le_of_lt (lt_of_le_of_lt hle hlt)
          · exact h3 m hm
        · intro m hm heq
          rcases List.mem_cons.1 hm with rfl | hm
          · rcases h2 with he | hlt
            · rw [he] at heq ⊢
              exact hr m (List.mem_cons_self _ _) heq
            · have hle : (List.lookup m scores).getD 0 ≤ r.score := le_of_not_lt hc
              exact absurd heq (ne_of_lt (lt_of_le_of_lt hle hlt))
          · exact h4 m hm heq

theorem classify_snd_eq (tok : String → List String) (c : Classifier) (text : String) :
    (Classifier.Classify tok c text).2
      = if (Classifier.scoreUnlocked tok c text).2.isEmpty
          then { category := "", score := 0 }
          else classifyFold (Classifier.scoreUnlocked tok c text).2
            { category := "", score := 0 }
            (((Classifier.scoreUnlocked tok c text).2.map Prod.fst).insertionSort
              (fun a b => a ≤ b)) := by
  by_cases h : (Classifier.scoreUnlocked tok c text).2.isEmpty = true
  · simp only [Classifier.Classify, h, if_true]
  · simp only [Bool.not_eq_true] at h
    simp only [Classifier.Classify, h, Bool.false_eq_true, if_false]

/-- C4: when no category has a strictly positive score the classification is the
empty result; otherwise the returned pair is one of the score entries, its score is
the greatest, and on ties the returned category name is at most every tying name
(the lexicographically smallest, since names are totally ordered). In particular,
training alpha and zeta on the same single-token sample and classifying it returns
alpha with score one half. -/
theorem classify_empty_or_argmax_with_lexicographic_tiebreak :
    (∀ (tok : String → List String) (c : Classifier) (text : String),
      (c.categories.categories.map Prod.fst).Nodup →
      ((Classifier.Score tok c text).2 = [] →
        (Classifier.Classify tok c text).2 = { category := "", score := 0 }) ∧
      ((Classifier.Score tok c text).2 ≠ [] →
        (((Classifier.Classify tok c text).2.category,
          (Classifier.Classify tok c text).2.score) : String × ℚ)
            ∈ (Classifier.Score tok c text).2 ∧
        (∀ p ∈ (Classifier.Score tok c text).2,
          p.2 ≤ (Classifier.Classify tok c text).2.score) ∧
        (∀ p ∈ (Classifier.Score tok c text).2,
          p.2 = (Classifier.Classify tok c text).2.score →
            (Classifier.Classify tok c text).2.category ≤ p.1))) ∧
    (Classifier.Classify tokenizeText
        (Classifier.Train tokenizeText
          (Classifier.Train tokenizeText NewClassifier "alpha" "shared").1
          "zeta" "shared").1 "shared").2
      = { category := "alpha", score := 1 / 2 } := by
  constructor
  · intro tok c text hnd
    have hScoreEq : (Classifier.Score tok c text).2
        = (Classifier.scoreUnlocked tok c text).2 := rfl
    constructor
    · intro hempty
      rw [classify_snd_eq, if_pos (by rw [← hScoreEq, hempty]; rfl)]
    · intro hne
      have hneU : (Classifier.scoreUnlocked tok c text).2 ≠ [] := by
        rw [← hScoreEq]; exact hne
      rw [classify_snd_eq,
        if_neg (by simpa [List.isEmpty_iff] using hneU)]
      have hkeysnd : (((Classifier.scoreUnlocked tok c text).2).map Prod.fst).Nodup := by
        rw [← hScoreEq]
        exact score_keys_nodup tok c text hnd
      have hpos : ∀ p ∈ (Classifier.scoreUnlocked tok c text).2, 0 < p.2 := by
        rw [← hScoreEq]
        exact score_entries_pos tok c text
      have hperm := List.perm_insertionSort (fun a b : String => a ≤ b)
        ((Classifier.scoreUnlocked tok c text).2.map Prod.fst)
      have hsorted := List.sorted_insertionSort (fun a b : String => a ≤ b)
        ((Classifier.scoreUnlocked tok c text).2.map Prod.fst)
      have hval : ∀ n ∈ (((Classifier.scoreUnlocked tok c text).2.map
            Prod.fst).insertionSort (fun a b => a ≤ b)),
          ∃ q ∈ (Classifier.scoreUnlocked tok c text).2, q.1 = n ∧
            (List.lookup n (Classifier.scoreUnlocked tok c text).2).getD 0 = q.2 ∧
            0 < q.2 := by
        intro n hn
        have hmem : n ∈ (Classifier.scoreUnlocked tok c text).2.map Prod.fst :=
          hperm.mem_iff.1 hn
        obtain ⟨q, hq, rfl⟩ := List.mem_map.1 hmem
        refine ⟨q, hq, rfl, ?_, hpos q hq⟩
        rw [lookup_of_mem_nodup _ hkeysnd q hq]
        rfl
      have hr0 : ∀ n ∈ (((Classifier.scoreUnlocked tok c text).2.map
            Prod.fst).insertionSort (fun a b => a ≤ b)),
          (List.lookup n (Classifier.scoreUnlocked tok c text).2).getD 0
            = (({ category := "", score := 0 } : Classification)).score →
          (({ category := "", score := 0 } : Classification)).category ≤ n := by
        intro n hn heq
        obtain ⟨q, _, _, hvq, hq⟩ := hval n hn
        rw [hvq] at heq
        exact absurd heq.symm (ne_of_lt hq)
      obtain ⟨h1, h2, h3, h4⟩ := classifyFold_spec
        (Classifier.scoreUnlocked tok c text).2 _ hsorted
        { category := "", score := 0 } hr0
      obtain ⟨p0, hp0⟩ := List.exists_mem_of_ne_nil _ hneU
      have hp0n : p0.1 ∈ (((Classifier.scoreUnlocked tok c text).2.map
          Prod.fst).insertionSort (fun a b => a ≤ b)) :=
        hperm.mem_iff.2 (List.mem_map_of_mem Prod.fst hp0)
      have hscorepos : 0 < (classifyFold (Classifier.scoreUnlocked tok c text).2
          { category := "", score := 0 }
          (((Classifier.scoreUnlocked tok c text).2.map Prod.fst).insertionSort
            (fun a b => a ≤ b))).score := by
        obtain ⟨q, _, _, hvq, hq⟩ := hval p0.1 hp0n
        have := h3 p0.1 hp0n
        rw [hvq] at this
        exact lt_of_lt_of_le hq this
      have hfne : ¬ (classifyFold (Classifier.scoreUnlocked tok c text).2
          { category := "", score := 0 }
          (((Classifier.scoreUnlocked tok c text).2.map Prod.fst).insertionSort
            (fun a b => a ≤ b)))
          = ({ category := "", score := 0 } : Classification) := by
        intro hcon
        rw [hcon] at hscorepos
        exact absurd hscorepos (by simp)
      refine ⟨?_, ?_, ?_⟩
      · rcases h1 with he | ⟨n, hn, hcat, hsc⟩
        · exact absurd he hfne
        · obtain ⟨q, hq, hq1, hvq, _⟩ := hval n hn
          rw [hcat, hsc, hvq, ← hq1]
          exact hq
      · intro p hp
        have hpn : p.1 ∈ (((Classifier.scoreUnlocked tok c text).2.map
            Prod.fst).insertionSort (fun a b => a ≤ b)) :=
          hperm.mem_iff.2 (List.mem_map_of_mem Prod.fst hp)
        have := h3 p.1 hpn
        rw [lookup_of_mem_nodup _ hkeysnd p hp] at this
        exact this
      · intro p hp heq
        have hpn : p.1 ∈ (((Classifier.scoreUnlocked tok c text).2.map
            Prod.fst).insertionSort (fun a b => a ≤ b)) :=
          hperm.mem_iff.2 (List.mem_map_of_mem Prod.fst hp)
        apply h4 p.1 hpn
        rw [lookup_of_mem_nodup _ hkeysnd p hp]
        exact heq
  · decide

/-- Witness for C4 at the tie-break scenario classifier: the returned pair is one of
the score entries. -/
theorem classify_empty_or_argmax_with_lexicographic_tiebreak_witness :
    (((Classifier.Classify tokenizeText
        (Classifier.Train tokenizeText
          (Classifier.Train tokenizeText NewClassifier "alpha" "shared").1
          "zeta" "shared").1 "shared").2.category,
      (Classifier.Classify tokenizeText
        (Classifier.Train tokenizeText
          (Classifier.Train tokenizeText NewClassifier "alpha" "shared").1
          "zeta" "shared").1 "shared").2.score) : String × ℚ)
      ∈ (Classifier.Score tokenizeText
          (Classifier.Train tokenizeText
            (Classifier.Train tokenizeText NewClassifier "alpha" "shared").1
            "zeta" "shared").1 "shared").2 :=
  ((classify_empty_or_argmax_with_lexicographic_tiebreak.1 tokenizeText
      (Classifier.Train tokenizeText
        (Classifier.Train tokenizeText NewClassifier "alpha" "shared").1
        "zeta" "shared").1 "shared" (by decide)).2 (by decide)).1
